import Mathlib

/-!
Verification development for the cached two-stage analysis pipeline implemented
in `src/pipeline.py` (class `CachedAnalysisPipeline`).

The embedding models the orchestration core:

* `loadData` models `_load_data` (read a tabular file, soft-failing to an empty
  frame on a missing file or parse error).
* `batchSlice` / `batches` model the batch partitioning in `_process_batches`
  (`num_batches = math.ceil(len(videos_df) / self.batch_size)` and
  `videos_df.iloc[i * batch_size : i * batch_size + batch_size]`).
* `resolveMedia` models the per-video media resolution loop (prefer
  `{video_dir}/{id}.mp4`, fall back to `{audio_dir}/{id}.mp3`, else skip).
* `firstTerminal` / `waitForFilesActive` model `_wait_for_files_active`
  (poll `genai.get_file` while the state is `PROCESSING`; raise when a file
  settles in a state other than `ACTIVE`).
* `runFlashAnalysis` models `_run_flash_analysis` (upload all media, wait for
  all of them to become `ACTIVE`, then issue the Gemini Flash call; any
  exception is caught and surfaces as `none`).
* `processOne` / `processLoop` / `processBatches` model the Stage-1 loop of
  `_process_batches`, including the cache check that short-circuits a batch.
* `synthesizeReport` models `_synthesize_report` (a single Gemini Pro call that
  may fail), `generateReportFile` models `_generate_report_file` (top-15
  appendix by views with thousands separators), and `cleanup` models
  `_cleanup` (three independent best-effort directory removals).
* `runPipeline` models `run_pipeline` from the point where both corpora have
  been loaded.

External effects are made explicit: the remote generative capability is an
oracle (`GenEnv`), the media filesystem is a set of present file ids
(`MediaFS`), the cache directory is an association list keyed by batch number,
and every network interaction is recorded in a chronological list of `Event`s.
Logging (`print`) and real time (`time.sleep`) are not modelled.
-/

namespace YTPipeline

/-- A row of the `{brand}_discovered_videos.csv` corpus, with the columns the
pipeline reads (`video_id`, `title`, `channel`, `views`, `likes`, `comments`,
`engagement`). -/
structure VideoRow where
  video_id : String
  title : String
  channel : String
  views : Nat
  likes : Nat
  comments : Nat
  engagement : Nat
deriving DecidableEq, Repr

/-- A row of the raw-comments corpus (`id_video`, `texto_comentario`); the
comment text may be missing (`dropna` in the source). -/
structure CommentRow where
  id_video : String
  texto_comentario : Option String
deriving DecidableEq, Repr

/-- One observable external interaction of the pipeline.  Events produced
while processing batch `n` carry that batch number. -/
inductive Event where
  | mediaResolve (batchNum : Nat)
  | upload (batchNum : Nat) (path : String)
  | poll (batchNum : Nat) (name : String)
  | flashCall (batchNum : Nat)
  | proCall
  | reportWrite
deriving DecidableEq, Repr

/-- The Stage-1 batch number an event belongs to (`0` for the Stage-2 call and
the report write, which belong to no batch). -/
def eventBatch : Event → Nat
  | .mediaResolve n => n
  | .upload n _ => n
  | .poll n _ => n
  | .flashCall n => n
  | .proCall => 0
  | .reportWrite => 0

/-- Oracle for the external generative capability: `uploadName` is the remote
name `genai.upload_file(path).name`, `pollStates` the successive
`genai.get_file(name).state.name` answers, `flashResult` the outcome of the
Gemini Flash call for a batch (`none` = the call raised), and `proResult` the
outcome of the Gemini Pro call. -/
structure GenEnv where
  uploadName : String → String
  pollStates : String → List String
  flashResult : Nat → Option String
  proResult : Option String

/-- Media files present on disk: ids with `{video_dir}/{id}.mp4` and ids with
`{audio_dir}/{id}.mp3`. -/
structure MediaFS where
  videoIds : List String
  audioIds : List String
deriving DecidableEq, Repr

def videoPath (vid : String) : String := "video/" ++ vid ++ ".mp4"

def audioPath (vid : String) : String := "audio/" ++ vid ++ ".mp3"

/-- The media-resolution loop of `_process_batches`: for each video id, take
the `.mp4` when present, otherwise the `.mp3` when present, otherwise skip the
video.  `os.path.exists` cannot raise, so the function is total. -/
def resolveMedia (fs : MediaFS) : List String → List String
  | [] => []
  | vid :: rest =>
      if vid ∈ fs.videoIds then videoPath vid :: resolveMedia fs rest
      else if vid ∈ fs.audioIds then audioPath vid :: resolveMedia fs rest
      else resolveMedia fs rest

/-- Modelled from the spec: the per-video media-selection rule in its own
words ("selection is video-preferred — if an `.mp4` exists for a video id it
is used, otherwise an `.mp3` fallback is used, otherwise the video contributes
no media to its batch's prompt"), to be compared with the source loop
`resolveMedia`. -/
def chooseMedia (fs : MediaFS) (vid : String) : Option String :=
  if vid ∈ fs.videoIds then some (videoPath vid)
  else if vid ∈ fs.audioIds then some (audioPath vid)
  else none

/-- The comment selection of `_process_batches`:
`comments_df[comments_df['id_video'].isin(batch_video_ids)]`. -/
def selectComments (comments : List CommentRow) (ids : List String) : List CommentRow :=
  comments.filter (fun c => c.id_video ∈ ids)

/-- The first non-`PROCESSING` state in a file's poll sequence, together with
the number of `genai.get_file` calls made to observe it; `none` when the
sequence never leaves `PROCESSING` (the `while` loop of
`_wait_for_files_active` would not terminate). -/
def firstTerminal : List String → Option (String × Nat)
  | [] => none
  | s :: rest =>
      if s = "PROCESSING" then
        match firstTerminal rest with
        | some (t, k) => some (t, k + 1)
        | none => none
      else some (s, 1)

/-- Outcome of `_wait_for_files_active`: every file reached `ACTIVE`, or some
file settled in another terminal state (the source raises `Exception`), or
some file never left `PROCESSING` (the source loops forever). -/
inductive WaitOutcome where
  | ok
  | failed (name : String) (state : String)
  | hang (name : String)
deriving DecidableEq, Repr

/-- Models `_wait_for_files_active`: files are checked in order; each file is
polled until its state is no longer `PROCESSING`; the first file whose
terminal state is not `ACTIVE` aborts the whole wait. -/
def waitForFilesActive (pollStates : String → List String) (batchNum : Nat) :
    List String → WaitOutcome × List Event
  | [] => (WaitOutcome.ok, [])
  | name :: rest =>
      match firstTerminal (pollStates name) with
      | none =>
          (WaitOutcome.hang name,
            List.replicate (pollStates name).length (Event.poll batchNum name))
      | some (t, k) =>
          if t = "ACTIVE" then
            let r := waitForFilesActive pollStates batchNum rest
            (r.1, List.replicate k (Event.poll batchNum name) ++ r.2)
          else (WaitOutcome.failed name t, List.replicate k (Event.poll batchNum name))

/-- Models `_run_flash_analysis`: upload every media file, wait for all
uploads to become `ACTIVE`, then issue the Gemini Flash call.  The `except`
block turns any raised exception (a failed or hung wait) into `none`; a call
that was issued but raised is a `flashCall` event with result `none`.  Prompt
construction is pure string substitution and is abstracted away. -/
def runFlashAnalysis (gen : GenEnv) (batchNum : Nat) (mediaFiles : List String) :
    Option String × List Event :=
  let w := waitForFilesActive gen.pollStates batchNum (mediaFiles.map gen.uploadName)
  match w.1 with
  | WaitOutcome.ok =>
      (gen.flashResult batchNum,
        mediaFiles.map (Event.upload batchNum) ++ w.2 ++ [Event.flashCall batchNum])
  | _ => (none, mediaFiles.map (Event.upload batchNum) ++ w.2)

/-- The cache directory: one entry per batch number, newest first
(`{cache_dir}/batch_{n}_summary.txt`). -/
abbrev Cache := List (Nat × String)

def cacheLookup : Cache → Nat → Option String
  | [], _ => none
  | (k', s) :: rest, k => if k' = k then some s else cacheLookup rest k

def cacheInsert (c : Cache) (k : Nat) (s : String) : Cache := (k, s) :: c

/-- `math.ceil(n / b)` for the batch count of `_process_batches`. -/
def numBatches (n b : Nat) : Nat := (n + b - 1) / b

/-- The slice `videos_df.iloc[i * batch_size : i * batch_size + batch_size]`
for the 0-based loop index `i`. -/
def batchSlice (videos : List VideoRow) (b i : Nat) : List VideoRow :=
  (videos.drop (i * b)).take b

def batchIds (videos : List VideoRow) (b i : Nat) : List String :=
  (batchSlice videos b i).map VideoRow.video_id

/-- The batch partition produced by the Stage-1 loop: one contiguous slice per
loop index. -/
def batches (videos : List VideoRow) (b : Nat) : List (List VideoRow) :=
  (List.range (numBatches videos.length b)).map (batchSlice videos b)

/-- One iteration of the Stage-1 loop of `_process_batches` for the 0-based
index `i` (batch number `i + 1`): a cache hit returns the cached text and does
nothing else; a miss slices the batch, selects its comments, resolves media,
runs the Flash analysis, and writes the cache entry only on success. -/
def processOne (fs : MediaFS) (gen : GenEnv) (videos : List VideoRow)
    (comments : List CommentRow) (b : Nat) (cache : Cache) (i : Nat) :
    Option String × Cache × List Event :=
  match cacheLookup cache (i + 1) with
  | some s => (some s, cache, [])
  | none =>
      let ids := batchIds videos b i
      let _batchComments := selectComments comments ids
      let media := resolveMedia fs ids
      match runFlashAnalysis gen (i + 1) media with
      | (some s, tr) =>
          (some s, cacheInsert cache (i + 1) s, Event.mediaResolve (i + 1) :: tr)
      | (none, tr) => (none, cache, Event.mediaResolve (i + 1) :: tr)

/-- The Stage-1 loop over a list of 0-based batch indices, returning the
collected summaries (in order, skipping failed batches), the final cache, and
the chronological event trace. -/
def processLoop (fs : MediaFS) (gen : GenEnv) (videos : List VideoRow)
    (comments : List CommentRow) (b : Nat) :
    Cache → List Nat → List String × Cache × List Event
  | cache, [] => ([], cache, [])
  | cache, i :: rest =>
      let r := processOne fs gen videos comments b cache i
      let l := processLoop fs gen videos comments b r.2.1 rest
      ((match r.1 with | some s => s :: l.1 | none => l.1), l.2.1, r.2.2 ++ l.2.2)

/-- Models `_process_batches`: iterate the Stage-1 loop over
`range(math.ceil(len(videos_df) / batch_size))`. -/
def processBatches (fs : MediaFS) (gen : GenEnv) (videos : List VideoRow)
    (comments : List CommentRow) (b : Nat) (cache : Cache) :
    List String × Cache × List Event :=
  processLoop fs gen videos comments b cache (List.range (numBatches videos.length b))

/-- Models `_synthesize_report`: a single Gemini Pro call over the joined
summaries and aggregate statistics; `none` when the call raised.  The prompt
text is abstracted away. -/
def synthesizeReport (gen : GenEnv) (_summaries : List String) : Option String :=
  gen.proResult

/-- Descending-views comparison used for the appendix sort
(`sort_values(by='views', ascending=False)`). -/
def viewsGe (a b : VideoRow) : Prop := b.views ≤ a.views

instance : DecidableRel viewsGe := fun a b => inferInstanceAs (Decidable (b.views ≤ a.views))

instance : IsTotal VideoRow viewsGe :=
  ⟨fun a b => (Nat.le_total b.views a.views).imp (fun h => h) (fun h => h)⟩

instance : IsTrans VideoRow viewsGe :=
  ⟨fun _ _ _ hab hbc => Nat.le_trans hbc hab⟩

def sortByViewsDesc (videos : List VideoRow) : List VideoRow :=
  List.insertionSort viewsGe videos

/-- `sort_values(by='views', ascending=False).head(15)`. -/
def appendixVideos (videos : List VideoRow) : List VideoRow :=
  (sortByViewsDesc videos).take 15

/-- Insert a comma after every three characters, counting from the end of the
list (the list is the reversed digit string). -/
def commaGroup : List Char → List Char
  | a :: b :: c :: d :: rest => a :: b :: c :: ',' :: commaGroup (d :: rest)
  | l => l

/-- Python's thousands-separated formatting `f"{x:,}"` for a natural number. -/
def formatThousands (n : Nat) : String :=
  String.mk (commaGroup (toString n).data.reverse).reverse

def appendixHeader : String := "## Apêndice: Top 15 Vídeos Analisados por Visualizações\n\n"

/-- One row of the appendix markdown table (`title`, `channel`, then the three
thousands-separated counters). -/
def appendixRowStr (v : VideoRow) : String :=
  "| " ++ v.title ++ " | " ++ v.channel ++ " | " ++ formatThousands v.views ++
    " | " ++ formatThousands v.likes ++ " | " ++ formatThousands v.comments ++ " |"

def appendixTable (videos : List VideoRow) : String :=
  String.intercalate ("\n")
    ("| title | channel | views | likes | comments |" ::
      "| --- | --- | --- | --- | --- |" ::
      (appendixVideos videos).map appendixRowStr)

/-- Models `_generate_report_file` in markdown mode: the synthesized narrative,
a separator, the appendix header, and the top-15 table computed from the full
corpus. -/
def generateReportFile (content : String) (videos : List VideoRow) : String :=
  content ++ "\n\n---\n\n" ++ appendixHeader ++ appendixTable videos

/-- Whether each of the three `shutil.rmtree` calls in `_cleanup` would
succeed. -/
structure CleanupEnv where
  rmAudioOk : Bool
  rmVideoOk : Bool
  rmCacheOk : Bool
deriving DecidableEq, Repr

/-- Filesystem-level state carried across the pipeline: the cache entries, the
existence of the three temporary directories, and the written report. -/
structure PipelineState where
  cache : Cache
  audioDirExists : Bool
  videoDirExists : Bool
  cacheDirExists : Bool
  report : Option String
deriving DecidableEq, Repr

/-- Models `_cleanup`: each directory is removed in its own `try` block; a
failed removal is logged and leaves the directory in place, and never stops
the later removals.  Removing the cache directory deletes the cache entries. -/
def cleanup (cenv : CleanupEnv) (st : PipelineState) : PipelineState :=
  let st1 :=
    if st.audioDirExists && cenv.rmAudioOk then { st with audioDirExists := false } else st
  let st2 :=
    if st1.videoDirExists && cenv.rmVideoOk then { st1 with videoDirExists := false } else st1
  if st2.cacheDirExists && cenv.rmCacheOk then
    { st2 with cacheDirExists := false, cache := [] }
  else st2

/-- Models `run_pipeline` from the point where both corpora are loaded: stop
on an empty corpus; run Stage-1; stop when no summaries were produced; run
Stage-2 and stop (with no report and no cleanup) when it fails; otherwise
write the report and only then clean up. -/
def runPipeline (fs : MediaFS) (gen : GenEnv) (cenv : CleanupEnv)
    (videos : List VideoRow) (comments : List CommentRow) (b : Nat)
    (st : PipelineState) : PipelineState × List Event :=
  if videos = [] ∨ comments = [] then (st, [])
  else
    let r := processBatches fs gen videos comments b st.cache
    let st1 : PipelineState := { st with cache := r.2.1 }
    if r.1 = [] then (st1, r.2.2)
    else
      match synthesizeReport gen r.1 with
      | none => (st1, r.2.2 ++ [Event.proCall])
      | some narrative =>
          let st2 : PipelineState := { st1 with report := some (generateReportFile narrative videos) }
          (cleanup cenv st2, r.2.2 ++ [Event.proCall, Event.reportWrite])

/-- The shape of a loaded tabular file: its column names and its number of
rows. -/
structure Frame where
  columns : List String
  nrows : Nat
deriving DecidableEq, Repr

def emptyFrame : Frame := ⟨[], 0⟩

/-- What `_load_data` finds at the given path: no file, an unparsable file, or
a parsed table. -/
inductive LoadSource where
  | missing
  | parseError
  | parsed (df : Frame)
deriving DecidableEq, Repr

/-- Models `_load_data`: a missing file or a `read_csv` error yields the empty
frame; otherwise the parsed table is returned as-is. -/
def loadData : LoadSource → Frame
  | .missing => emptyFrame
  | .parseError => emptyFrame
  | .parsed df => df

/-- The columns of the video corpus that the pipeline later reads. -/
def videosRequiredColumns : List String :=
  ["video_id", "title", "channel", "views", "likes", "comments", "engagement"]

/-- A concrete media layout: video `a` has an `.mp4`, video `b` only an
`.mp3`, video `c` neither. -/
def fs0 : MediaFS := ⟨["a"], ["b"]⟩

/-- A generative environment in which every upload becomes `ACTIVE` at once
and both stages succeed. -/
def gen0 : GenEnv :=
  ⟨fun p => p, fun _ => ["ACTIVE"], fun k => some (toString k), some ("narrative")⟩

/-- A generative environment in which Stage-1 succeeds but the Stage-2 Gemini
Pro call fails. -/
def genPro0 : GenEnv :=
  ⟨fun p => p, fun _ => ["ACTIVE"], fun k => some (toString k), none⟩

/-- A generative environment in which every generative call fails. -/
def genDead : GenEnv :=
  ⟨fun p => p, fun _ => ["ACTIVE"], fun _ => none, none⟩

/-- A generative environment in which file `p1` is `PROCESSING` once and then
`ACTIVE`, while every other file settles in `FAILED`. -/
def genMixed : GenEnv :=
  ⟨fun p => p,
    fun nm => if nm = "p1" then ["PROCESSING", "ACTIVE"] else ["FAILED"],
    fun k => some (toString k), some ("narrative")⟩

/-- A three-video corpus over ids `a`, `b`, `c`. -/
def videos0 : List VideoRow :=
  [⟨"a", "ta", "ca", 5, 1, 1, 1⟩, ⟨"b", "tb", "cb", 9, 2, 2, 2⟩,
    ⟨"c", "tc", "cc", 7, 3, 3, 3⟩]

def comments0 : List CommentRow := [⟨"a", some ("great")⟩]

def cenv0 : CleanupEnv := ⟨true, true, true⟩

/-- The initial on-disk state: empty cache, all three directories present, no
report yet. -/
def st0 : PipelineState := ⟨[], true, true, true, none⟩

section Lemmas

variable {fs : MediaFS} {gen : GenEnv} {videos : List VideoRow}
variable {comments : List CommentRow} {b : Nat} {cache : Cache}

theorem cacheLookup_insert (c : Cache) (k m : Nat) (s : String) :
    cacheLookup (cacheInsert c k s) m = if k = m then some s else cacheLookup c m := rfl

theorem processOne_hit {i : Nat} {s : String} (h : cacheLookup cache (i + 1) = some s) :
    processOne fs gen videos comments b cache i = (some s, cache, []) := by
  simp [processOne, h]

theorem processOne_miss {i : Nat} (h : cacheLookup cache (i + 1) = none) :
    processOne fs gen videos comments b cache i =
      match runFlashAnalysis gen (i + 1) (resolveMedia fs (batchIds videos b i)) with
      | (some s, tr) => (some s, cacheInsert cache (i + 1) s, Event.mediaResolve (i + 1) :: tr)
      | (none, tr) => (none, cache, Event.mediaResolve (i + 1) :: tr) := by
  simp [processOne, h]

theorem wait_events_poll (ps : String → List String) (n : Nat) (files : List String) :
    ∀ e ∈ (waitForFilesActive ps n files).2, ∃ nm, e = Event.poll n nm := by
  induction files with
  | nil => simp [waitForFilesActive]
  | cons name rest ih =>
      intro e he
      simp only [waitForFilesActive] at he
      cases hft : firstTerminal (ps name) with
      | none =>
          rw [hft] at he
          exact ⟨name, List.eq_of_mem_replicate he⟩
      | some tk =>
          obtain ⟨t, k⟩ := tk
          rw [hft] at he
          by_cases ht : t = "ACTIVE"
          · simp only [ht, if_pos rfl] at he
            rcases List.mem_append.mp he with h1 | h2
            · exact ⟨name, List.eq_of_mem_replicate h1⟩
            · exact ih e h2
          · simp only [if_neg ht] at he
            exact ⟨name, List.eq_of_mem_replicate he⟩

theorem runFlash_trace_eq (gen : GenEnv) (n : Nat) (media : List String) :
    (runFlashAnalysis gen n media).1 =
      (if (waitForFilesActive gen.pollStates n (media.map gen.uploadName)).1 = WaitOutcome.ok
        then gen.flashResult n else none) ∧
    (runFlashAnalysis gen n media).2 =
      media.map (Event.upload n) ++
        (waitForFilesActive gen.pollStates n (media.map gen.uploadName)).2 ++
        (if (waitForFilesActive gen.pollStates n (media.map gen.uploadName)).1 = WaitOutcome.ok
          then [Event.flashCall n] else []) := by
  unfold runFlashAnalysis
  cases hw : (waitForFilesActive gen.pollStates n (media.map gen.uploadName)).1 <;>
    simp [hw]

theorem runFlash_event_shape (gen : GenEnv) (n : Nat) (media : List String) :
    ∀ e ∈ (runFlashAnalysis gen n media).2,
      (∃ p, e = Event.upload n p) ∨ (∃ nm, e = Event.poll n nm) ∨ e = Event.flashCall n := by
  intro e he
  rw [(runFlash_trace_eq gen n media).2] at he
  rcases List.mem_append.mp he with h1 | h2
  · rcases List.mem_append.mp h1 with h3 | h4
    · rcases List.mem_map.mp h3 with ⟨p, _, hp⟩
      exact Or.inl ⟨p, hp.symm⟩
    · exact Or.inr (Or.inl (wait_events_poll gen.pollStates n (media.map gen.uploadName) e h4))
  · by_cases hok :
      (waitForFilesActive gen.pollStates n (media.map gen.uploadName)).1 = WaitOutcome.ok
    · rw [if_pos hok] at h2
      simp at h2
      exact Or.inr (Or.inr h2)
    · rw [if_neg hok] at h2
      simp at h2

theorem runFlash_events_tag (gen : GenEnv) (n : Nat) (media : List String) :
    ∀ e ∈ (runFlashAnalysis gen n media).2, eventBatch e = n := by
  intro e he
  rcases runFlash_event_shape gen n media e he with ⟨p, rfl⟩ | ⟨nm, rfl⟩ | rfl <;> rfl

theorem runFlash_fst_none {n : Nat} {media : List String}
    (h : gen.flashResult n = none) : (runFlashAnalysis gen n media).1 = none := by
  rw [(runFlash_trace_eq gen n media).1]
  split <;> simp [h]

theorem processOne_events_tag {i : Nat} :
    ∀ e ∈ (processOne fs gen videos comments b cache i).2.2, eventBatch e = i + 1 := by
  intro e he
  cases hc : cacheLookup cache (i + 1) with
  | some s => rw [processOne_hit hc] at he; simp at he
  | none =>
      rw [processOne_miss hc] at he
      rcases hr : runFlashAnalysis gen (i + 1) (resolveMedia fs (batchIds videos b i))
        with ⟨res, tr⟩
      rw [hr] at he
      have htr : ∀ e ∈ tr, eventBatch e = i + 1 := by
        intro e' he'
        have := runFlash_events_tag gen (i + 1) (resolveMedia fs (batchIds videos b i)) e'
        rw [hr] at this
        exact this he'
      cases res <;> simp only [] at he <;>
        rcases List.mem_cons.mp he with rfl | hmem
      · rfl
      · exact htr e hmem
      · rfl
      · exact htr e hmem

theorem processOne_lookup_mono {i m : Nat} {s : String}
    (h : cacheLookup cache m = some s) :
    cacheLookup (processOne fs gen videos comments b cache i).2.1 m = some s := by
  cases hc : cacheLookup cache (i + 1) with
  | some s' => rw [processOne_hit hc]; exact h
  | none =>
      rw [processOne_miss hc]
      rcases hr : runFlashAnalysis gen (i + 1) (resolveMedia fs (batchIds videos b i))
        with ⟨res, tr⟩
      cases res with
      | some t =>
          simp only [cacheLookup_insert]
          have : ¬ (i + 1 = m) := by
            intro hm
            rw [hm] at hc
            rw [hc] at h
            exact Option.noConfusion h
          rw [if_neg this]
          exact h
      | none => exact h

theorem processOne_lookup_other {i m : Nat} (hm : m ≠ i + 1) :
    cacheLookup (processOne fs gen videos comments b cache i).2.1 m =
      cacheLookup cache m := by
  cases hc : cacheLookup cache (i + 1) with
  | some s' => rw [processOne_hit hc]
  | none =>
      rw [processOne_miss hc]
      rcases hr : runFlashAnalysis gen (i + 1) (resolveMedia fs (batchIds videos b i))
        with ⟨res, tr⟩
      cases res with
      | some t =>
          simp only [cacheLookup_insert]
          rw [if_neg (fun h => hm h.symm)]
      | none => rfl

theorem processLoop_events_tag (idxs : List Nat) :
    ∀ cache, ∀ e ∈ (processLoop fs gen videos comments b cache idxs).2.2,
      ∃ i ∈ idxs, eventBatch e = i + 1 := by
  induction idxs with
  | nil => intro cache e he; simp [processLoop] at he
  | cons i rest ih =>
      intro cache e he
      simp only [processLoop] at he
      rcases List.mem_append.mp he with h1 | h2
      · exact ⟨i, List.mem_cons_self i rest, processOne_events_tag e h1⟩
      · rcases ih _ e h2 with ⟨j, hj, hje⟩
        exact ⟨j, List.mem_cons_of_mem i hj, hje⟩

theorem processLoop_lookup_mono (idxs : List Nat) {m : Nat} {s : String} :
    ∀ cache, cacheLookup cache m = some s →
      cacheLookup (processLoop fs gen videos comments b cache idxs).2.1 m = some s := by
  induction idxs with
  | nil => intro cache h; simpa [processLoop] using h
  | cons i rest ih =>
      intro cache h
      simp only [processLoop]
      exact ih _ (processOne_lookup_mono h)

theorem processLoop_lookup_other (idxs : List Nat) {m : Nat} :
    ∀ cache, (∀ i ∈ idxs, m ≠ i + 1) →
      cacheLookup (processLoop fs gen videos comments b cache idxs).2.1 m =
        cacheLookup cache m := by
  induction idxs with
  | nil => intro cache _; simp [processLoop]
  | cons i rest ih =>
      intro cache h
      simp only [processLoop]
      rw [ih _ (fun j hj => h j (List.mem_cons_of_mem i hj))]
      exact processOne_lookup_other (h i (List.mem_cons_self i rest))

theorem processLoop_cached_silent (idxs : List Nat) {m : Nat} {s : String} :
    ∀ cache, cacheLookup cache m = some s →
      ∀ e ∈ (processLoop fs gen videos comments b cache idxs).2.2, eventBatch e ≠ m := by
  induction idxs with
  | nil => intro cache _ e he; simp [processLoop] at he
  | cons i rest ih =>
      intro cache h e he
      simp only [processLoop] at he
      by_cases him : i + 1 = m
      · subst him
        rw [processOne_hit h] at he
        simp only [List.nil_append] at he
        exact ih cache h e he
      · rcases List.mem_append.mp he with h1 | h2
        · intro habs
          exact him (by rw [← processOne_events_tag e h1, habs])
        · exact ih _ (processOne_lookup_mono h) e h2

theorem processLoop_cached_mem (idxs : List Nat) {i : Nat} {s : String} :
    ∀ cache, i ∈ idxs → cacheLookup cache (i + 1) = some s →
      s ∈ (processLoop fs gen videos comments b cache idxs).1 := by
  induction idxs with
  | nil => intro cache h; simp at h
  | cons j rest ih =>
      intro cache hmem h
      simp only [processLoop]
      by_cases hji : j = i
      · subst hji
        rw [processOne_hit h]
        simp
      · rcases List.mem_cons.mp hmem with rfl | hrest
        · exact absurd rfl hji
        · have hs : s ∈ (processLoop fs gen videos comments b
              (processOne fs gen videos comments b cache j).2.1 rest).1 :=
            ih _ hrest (processOne_lookup_mono h)
          cases hres : (processOne fs gen videos comments b cache j).1 with
          | some t => simp only [hres]; exact List.mem_cons_of_mem t hs
          | none => simpa only [hres] using hs

theorem processLoop_all_hits (idxs : List Nat) :
    ∀ cache, (∀ i ∈ idxs, (cacheLookup cache (i + 1)).isSome) →
      (processLoop fs gen videos comments b cache idxs).2.1 = cache ∧
        (processLoop fs gen videos comments b cache idxs).2.2 = [] := by
  induction idxs with
  | nil => intro cache _; simp [processLoop]
  | cons i rest ih =>
      intro cache h
      have hi := h i (List.mem_cons_self i rest)
      rcases Option.isSome_iff_exists.mp hi with ⟨s, hs⟩
      simp only [processLoop, processOne_hit hs]
      have := ih cache (fun j hj => h j (List.mem_cons_of_mem i hj))
      exact ⟨this.1, by rw [List.nil_append]; exact this.2⟩

theorem processLoop_failed_none (idxs : List Nat) {i : Nat} :
    ∀ cache, cacheLookup cache (i + 1) = none →
      (runFlashAnalysis gen (i + 1) (resolveMedia fs (batchIds videos b i))).1 = none →
      cacheLookup (processLoop fs gen videos comments b cache idxs).2.1 (i + 1) = none := by
  induction idxs with
  | nil => intro cache h _; simpa [processLoop] using h
  | cons j rest ih =>
      intro cache h hf
      simp only [processLoop]
      by_cases hji : j = i
      · subst hji
        rw [processOne_miss h]
        rcases hr : runFlashAnalysis gen (j + 1) (resolveMedia fs (batchIds videos b j))
          with ⟨res, tr⟩
        rw [hr] at hf
        simp only at hf
        subst hf
        exact ih _ h (by rw [hr])
      · have hne : i + 1 ≠ j + 1 := fun habs => hji (Nat.succ_injective habs.symm)
        exact ih _ (by rw [processOne_lookup_other hne]; exact h) hf

theorem processLoop_uncached_resolve (idxs : List Nat) {i : Nat} :
    ∀ cache, i ∈ idxs → cacheLookup cache (i + 1) = none →
      Event.mediaResolve (i + 1) ∈ (processLoop fs gen videos comments b cache idxs).2.2 := by
  induction idxs with
  | nil => intro cache h; simp at h
  | cons j rest ih =>
      intro cache hmem h
      simp only [processLoop]
      by_cases hji : j = i
      · subst hji
        rw [processOne_miss h]
        rcases hr : runFlashAnalysis gen (j + 1) (resolveMedia fs (batchIds videos b j))
          with ⟨res, tr⟩
        cases res <;> simp
      · rcases List.mem_cons.mp hmem with rfl | hrest
        · exact absurd rfl hji
        · have hne : i + 1 ≠ j + 1 := fun habs => hji (Nat.succ_injective habs.symm)
          refine List.mem_append.mpr (Or.inr ?_)
          exact ih _ hrest (by rw [processOne_lookup_other hne]; exact h)

theorem processLoop_allfail (idxs : List Nat)
    (hgen : ∀ k, gen.flashResult k = none) :
    (processLoop fs gen videos comments b [] idxs).1 = [] ∧
      (processLoop fs gen videos comments b [] idxs).2.1 = [] := by
  induction idxs with
  | nil => simp [processLoop]
  | cons i rest ih =>
      simp only [processLoop]
      have h : cacheLookup ([] : Cache) (i + 1) = none := rfl
      rw [processOne_miss h]
      rcases hr : runFlashAnalysis gen (i + 1) (resolveMedia fs (batchIds videos b i))
        with ⟨res, tr⟩
      have hres : res = none := by
        have := @runFlash_fst_none gen (i + 1)
          (resolveMedia fs (batchIds videos b i)) (hgen (i + 1))
        rw [hr] at this
        exact this
      subst hres
      simpa using ih

theorem numBatches_mul_ge (n : Nat) (hb : 1 ≤ b) : n ≤ numBatches n b * b := by
  unfold numBatches
  have h1 := Nat.div_add_mod (n + b - 1) b
  have h2 : (n + b - 1) % b < b := Nat.mod_lt _ hb
  rw [mul_comm]
  generalize b * ((n + b - 1) / b) = m at h1 ⊢
  generalize (n + b - 1) % b = r at h1 h2
  omega

theorem numBatches_pred_mul_lt (n : Nat) (hn : 1 ≤ n) :
    (numBatches n b - 1) * b < n := by
  have h1 : numBatches n b * b ≤ n + b - 1 := Nat.div_mul_le_self _ _
  have h2 : (numBatches n b - 1) * b = numBatches n b * b - b := by
    rw [Nat.sub_mul, Nat.one_mul]
  rw [h2]
  generalize numBatches n b * b = m at h1 ⊢
  omega

theorem flatten_slices {α : Type} (b : Nat) :
    ∀ (n : Nat) (l : List α), l.length ≤ n * b →
      ((List.range n).map (fun i => (l.drop (i * b)).take b)).flatten = l := by
  intro n
  induction n with
  | zero =>
      intro l hl
      simp only [Nat.zero_mul, Nat.le_zero] at hl
      simp [List.length_eq_zero.mp hl]
  | succ n ih =>
      intro l hl
      rw [List.range_succ_eq_map, List.map_cons, List.map_map, List.flatten_cons]
      have hmap : (List.range n).map ((fun i => (l.drop (i * b)).take b) ∘ Nat.succ) =
          (List.range n).map (fun i => (((l.drop b).drop (i * b))).take b) := by
        refine List.map_congr_left (fun i _ => ?_)
        simp only [Function.comp]
        rw [List.drop_drop, Nat.succ_mul, Nat.add_comm]
      rw [hmap, ih (l.drop b) (by rw [List.length_drop]; rw [Nat.succ_mul] at hl; omega)]
      simp only [Nat.zero_mul, List.drop_zero]
      exact List.take_append_drop b l

theorem batches_flatten (hb : 1 ≤ b) : (batches videos b).flatten = videos := by
  unfold batches batchSlice
  exact flatten_slices b _ videos (numBatches_mul_ge videos.length hb)

theorem wait_ok_iff (ps : String → List String) (n : Nat) (files : List String) :
    (waitForFilesActive ps n files).1 = WaitOutcome.ok ↔
      ∀ name ∈ files, ∃ k, firstTerminal (ps name) = some ("ACTIVE", k) := by
  induction files with
  | nil => simp [waitForFilesActive]
  | cons name rest ih =>
      simp only [waitForFilesActive]
      cases hft : firstTerminal (ps name) with
      | none =>
          constructor
          · intro h
            exact absurd h (by simp)
          · intro h
            rcases h name (List.mem_cons_self name rest) with ⟨k, hk⟩
            rw [hft] at hk
            exact Option.noConfusion hk
      | some tk =>
          obtain ⟨t, k⟩ := tk
          by_cases ht : t = "ACTIVE"
          · subst ht
            simp only [if_pos rfl]
            constructor
            · intro h nm hnm
              rcases List.mem_cons.mp hnm with rfl | hr
              · exact ⟨k, hft⟩
              · exact (ih.mp h) nm hr
            · intro h
              exact ih.mpr (fun nm hnm => h nm (List.mem_cons_of_mem name hnm))
          · simp only [if_neg ht]
            constructor
            · intro h
              exact absurd h (by simp)
            · intro h
              rcases h name (List.mem_cons_self name rest) with ⟨k', hk'⟩
              rw [hft] at hk'
              exact absurd (congrArg Prod.fst (Option.some.inj hk')) ht

theorem firstTerminal_spec :
    ∀ (states : List String) (t : String) (k : Nat),
      firstTerminal states = some (t, k) →
      1 ≤ k ∧ states.take (k - 1) = List.replicate (k - 1) "PROCESSING" ∧
        states[k - 1]? = some t ∧ t ≠ "PROCESSING" := by
  intro states
  induction states with
  | nil => intro t k h; exact absurd h (by simp [firstTerminal])
  | cons s rest ih =>
      intro t k h
      simp only [firstTerminal] at h
      by_cases hs : s = "PROCESSING"
      · rw [if_pos hs] at h
        cases hft : firstTerminal rest with
        | none => rw [hft] at h; exact Option.noConfusion h
        | some tk =>
            obtain ⟨t', k'⟩ := tk
            rw [hft] at h
            simp only [Option.some.injEq, Prod.mk.injEq] at h
            obtain ⟨rfl, rfl⟩ := h
            obtain ⟨hk1, htake, hget, hne⟩ := ih t' k' hft
            obtain ⟨m, rfl⟩ : ∃ m, k' = m + 1 :=
              ⟨k' - 1, (Nat.succ_pred_eq_of_pos hk1).symm⟩
            refine ⟨Nat.le_add_left 1 (m + 1), ?_, ?_, hne⟩
            · simp only [Nat.add_sub_cancel] at htake ⊢
              rw [List.take_succ_cons, htake, hs, List.replicate_succ]
            · simp only [Nat.add_sub_cancel] at hget ⊢
              rw [List.getElem?_cons_succ]
              exact hget
      · rw [if_neg hs] at h
        simp only [Option.some.injEq, Prod.mk.injEq] at h
        obtain ⟨rfl, rfl⟩ := h
        exact ⟨Nat.le_refl 1, by simp, by simp, hs⟩

theorem commaGroup_filter : ∀ l : List Char,
    (commaGroup l).filter (fun c => !(c == ',')) = l.filter (fun c => !(c == ','))
  | [] => rfl
  | [a] => rfl
  | [a, b] => rfl
  | [a, b, c] => rfl
  | a :: b :: c :: d :: rest => by
      have ih := commaGroup_filter (d :: rest)
      simp only [commaGroup, List.filter_cons] at ih ⊢
      simp [ih]

end Lemmas

/-- C2: for every corpus and every `batch_size ≥ 1`, `_process_batches`
partitions the corpus into exactly `ceil(N / batch_size)` batches (the two
middle conjuncts are the defining bounds of the ceiling); the batch at 0-based
loop index `i` (batch number `i + 1`) is the contiguous, order-preserving
slice `videos_df.iloc[i*b : i*b + b]`; the batch sizes sum to `N`;
concatenating the batches reproduces the corpus exactly (no overlap, no
omission), and when the corpus ids are distinct the batches' video-id sets are
pairwise disjoint. -/
theorem C2_partition (videos : List VideoRow) (b : Nat) (hb : 1 ≤ b) :
    (batches videos b).length = numBatches videos.length b ∧
    videos.length ≤ (batches videos b).length * b ∧
    (1 ≤ videos.length → ((batches videos b).length - 1) * b < videos.length) ∧
    (∀ (i : Nat) (h : i < (batches videos b).length),
      (batches videos b).get ⟨i, h⟩ = (videos.drop (i * b)).take b) ∧
    ((batches videos b).map List.length).sum = videos.length ∧
    (batches videos b).flatten = videos ∧
    ((videos.map VideoRow.video_id).Nodup →
      List.Pairwise
        (fun s t => ∀ x ∈ s.map VideoRow.video_id, x ∉ t.map VideoRow.video_id)
        (batches videos b)) := by
  refine ⟨by simp [batches], ?_, ?_, ?_, ?_, batches_flatten hb, ?_⟩
  · have h := @numBatches_mul_ge b videos.length hb
    simpa [batches] using h
  · intro hn
    have h := @numBatches_pred_mul_lt b videos.length hn
    simpa [batches] using h
  · intro i h
    simp [batches, batchSlice]
  · rw [← List.length_flatten, batches_flatten hb]
  · intro hnd
    have hnd2 : ((batches videos b).flatten.map VideoRow.video_id).Nodup := by
      rw [batches_flatten hb]
      exact hnd
    rw [List.map_flatten, List.nodup_flatten] at hnd2
    have hp := hnd2.2
    rw [List.pairwise_map] at hp
    exact hp.imp (fun h x => @h x)

/-- C5: the media-resolution loop of `_process_batches` is exactly the
per-video video-preferred rule `chooseMedia`: an existing `.mp4` is selected
even when the `.mp3` also exists, otherwise an existing `.mp3` is selected,
otherwise the video contributes no media reference; the functions are total,
so no error is raised for a video with neither file. -/
theorem C5_media_resolution (fs : MediaFS) (ids : List String) :
    resolveMedia fs ids = ids.filterMap (chooseMedia fs) ∧
    (∀ vid, vid ∈ fs.videoIds → chooseMedia fs vid = some (videoPath vid)) ∧
    (∀ vid, vid ∉ fs.videoIds → vid ∈ fs.audioIds →
      chooseMedia fs vid = some (audioPath vid)) ∧
    (∀ vid, vid ∉ fs.videoIds → vid ∉ fs.audioIds → chooseMedia fs vid = none) := by
  refine ⟨?_, ?_, ?_, ?_⟩
  · induction ids with
    | nil => rfl
    | cons vid rest ih =>
        simp only [resolveMedia, List.filterMap_cons, chooseMedia]
        by_cases h1 : vid ∈ fs.videoIds
        · simp [h1, ih]
        · by_cases h2 : vid ∈ fs.audioIds <;> simp [h1, h2, ih]
  · intro vid h
    simp [chooseMedia, h]
  · intro vid h1 h2
    simp [chooseMedia, h1, h2]
  · intro vid h1 h2
    simp [chooseMedia, h1, h2]

/-- C7 counterexample: `_load_data` returns a parsed, non-empty table that
lacks the required `video_id` column unchanged — no required-column validation
happens before returning a non-empty result. -/
theorem C7_counterexample :
    (loadData (LoadSource.parsed ⟨["title"], 3⟩)).nrows ≠ 0 ∧
    "video_id" ∉ (loadData (LoadSource.parsed ⟨["title"], 3⟩)).columns ∧
    "video_id" ∈ videosRequiredColumns := by decide

/-- C7 amended: `_load_data` performs no column validation at all — a parsed
table is returned as-is whatever its columns (a missing required column is not
detected by the loader and later surfaces as an uncaught `KeyError`); only a
missing file or a parse error yields the empty sentinel frame. -/
theorem C7_no_column_validation (df : Frame) :
    loadData (LoadSource.parsed df) = df ∧
    loadData LoadSource.missing = emptyFrame ∧
    loadData LoadSource.parseError = emptyFrame :=
  ⟨rfl, rfl, rfl⟩

/-- C8: `_cleanup` attempts the three directory removals independently — each
directory survives exactly when it existed and its own `rmtree` failed,
regardless of the other two outcomes; the function is total (a failure never
escalates) and the already-written report is untouched. -/
theorem C8_cleanup_independent (cenv : CleanupEnv) (st : PipelineState) :
    (cleanup cenv st).audioDirExists = (st.audioDirExists && !cenv.rmAudioOk) ∧
    (cleanup cenv st).videoDirExists = (st.videoDirExists && !cenv.rmVideoOk) ∧
    (cleanup cenv st).cacheDirExists = (st.cacheDirExists && !cenv.rmCacheOk) ∧
    (cleanup cenv st).report = st.report ∧
    (cleanup cenv st).cache =
      (if st.cacheDirExists && cenv.rmCacheOk then [] else st.cache) := by
  obtain ⟨c, a, v, cd, r⟩ := st
  obtain ⟨ra, rv, rc⟩ := cenv
  cases a <;> cases v <;> cases cd <;> cases ra <;> cases rv <;> cases rc <;>
    simp [cleanup]

/-- C9: the report appendix of `_generate_report_file` is appended after the
synthesized narrative with a separator; it is computed from the full corpus
only (no batch information reaches `generateReportFile`); it holds
`min 15 N` videos drawn from the corpus, sorted by descending view count, and
every corpus video outside the appendix has at most the views of every
appendix entry (so the appendix is exactly a top-15 by views); and the numeric
formatting only inserts comma separators into the plain decimal string. -/
theorem C9_report_appendix (content : String) (videos : List VideoRow) :
    generateReportFile content videos =
      content ++ "\n\n---\n\n" ++ appendixHeader ++ appendixTable videos ∧
    appendixTable videos =
      String.intercalate ("\n")
        ("| title | channel | views | likes | comments |" ::
          "| --- | --- | --- | --- | --- |" ::
          (appendixVideos videos).map appendixRowStr) ∧
    (appendixVideos videos).length = min 15 videos.length ∧
    List.Sorted viewsGe (appendixVideos videos) ∧
    (∀ a ∈ appendixVideos videos, a ∈ videos) ∧
    (∀ v ∈ videos, v ∈ appendixVideos videos ∨
      ∀ a ∈ appendixVideos videos, v.views ≤ a.views) ∧
    (∀ n : Nat, (formatThousands n).data.filter (fun c => !(c == ',')) =
      (toString n).data.filter (fun c => !(c == ','))) := by
  refine ⟨rfl, rfl, ?_, ?_, ?_, ?_, ?_⟩
  · rw [appendixVideos, List.length_take, sortByViewsDesc,
      (List.perm_insertionSort viewsGe videos).length_eq]
  · exact List.Pairwise.sublist (List.take_sublist 15 _)
      (List.sorted_insertionSort viewsGe videos)
  · intro a ha
    exact (List.perm_insertionSort viewsGe videos).subset (List.mem_of_mem_take ha)
  · intro v hv
    have hv2 : v ∈ sortByViewsDesc videos :=
      ((List.perm_insertionSort viewsGe videos).mem_iff).mpr hv
    have hsplit := List.take_append_drop 15 (sortByViewsDesc videos)
    rw [← hsplit] at hv2
    rcases List.mem_append.mp hv2 with hl | hr
    · exact Or.inl hl
    · refine Or.inr (fun a ha => ?_)
      have hp : List.Pairwise viewsGe
          ((sortByViewsDesc videos).take 15 ++ (sortByViewsDesc videos).drop 15) := by
        rw [hsplit]
        exact List.sorted_insertionSort viewsGe videos
      exact (List.pairwise_append.mp hp).2.2 a ha v hr
  · intro n
    show ((commaGroup (toString n).data.reverse).reverse).filter (fun c => !(c == ',')) =
      (toString n).data.filter (fun c => !(c == ','))
    rw [List.filter_reverse, commaGroup_filter, List.filter_reverse,
      List.reverse_reverse]

/-- C6: in `_run_flash_analysis` the event trace is the uploads, then the
polls of `_wait_for_files_active`, then the Gemini Flash call only when the
wait succeeded; the wait succeeds exactly when every uploaded file's first
non-`PROCESSING` state is `ACTIVE`; when the wait does not succeed (a file
settled in a terminal state other than `ACTIVE`, or never settled) the batch
fails and no Flash call is made; and a file whose first terminal state is
observed at poll `k` was polled through `k - 1` consecutive `PROCESSING`
answers first. -/
theorem C6_wait_gates_flash_call (gen : GenEnv) (n : Nat) (media : List String) :
    (runFlashAnalysis gen n media).2 =
      media.map (Event.upload n) ++
        (waitForFilesActive gen.pollStates n (media.map gen.uploadName)).2 ++
        (if (waitForFilesActive gen.pollStates n (media.map gen.uploadName)).1 =
            WaitOutcome.ok
          then [Event.flashCall n] else []) ∧
    ((waitForFilesActive gen.pollStates n (media.map gen.uploadName)).1 =
        WaitOutcome.ok ↔
      ∀ name ∈ media.map gen.uploadName, ∃ k,
        firstTerminal (gen.pollStates name) = some ("ACTIVE", k)) ∧
    ((waitForFilesActive gen.pollStates n (media.map gen.uploadName)).1 ≠
        WaitOutcome.ok →
      (runFlashAnalysis gen n media).1 = none ∧
        Event.flashCall n ∉ (runFlashAnalysis gen n media).2) ∧
    (∀ (states : List String) (t : String) (k : Nat),
      firstTerminal states = some (t, k) →
      1 ≤ k ∧ states.take (k - 1) = List.replicate (k - 1) "PROCESSING" ∧
        states[k - 1]? = some t ∧ t ≠ "PROCESSING") := by
  refine ⟨(runFlash_trace_eq gen n media).2, wait_ok_iff gen.pollStates n _,
    ?_, firstTerminal_spec⟩
  intro hne
  constructor
  · rw [(runFlash_trace_eq gen n media).1, if_neg hne]
  · rw [(runFlash_trace_eq gen n media).2, if_neg hne, List.append_nil]
    intro hmem
    rcases List.mem_append.mp hmem with hl | hr
    · rcases List.mem_map.mp hl with ⟨p, _, hp⟩
      exact Event.noConfusion hp
    · rcases wait_events_poll gen.pollStates n (media.map gen.uploadName) _ hr
        with ⟨nm, hnm⟩
      exact Event.noConfusion hnm

/-- C1: (first part) a batch whose cache entry exists at the start of the run
is short-circuited — the run's event trace holds no media resolution, no
upload, no poll and no Flash call for that batch number, the cache entry is
left unchanged, and the cached text itself flows into the collected summaries;
(second part) rerunning Stage-1 on the cache produced by a run that covered
every batch performs no external interaction at all and leaves the cache
unchanged (full cache hit, zero additional generative calls); (third part)
when batches `1..k` are cached and `k + 1` is not, a rerun touches only
batches `k + 1` onward — every traced event belongs to a batch `≥ k + 1`,
batch `k + 1` is reprocessed, and the cached entries up to `k` are left
byte-identical. -/
theorem C1_cache_short_circuit :
    (∀ (fs : MediaFS) (gen : GenEnv) (videos : List VideoRow)
        (comments : List CommentRow) (b : Nat) (cache : Cache) (i : Nat) (s : String),
      i < numBatches videos.length b →
      cacheLookup cache (i + 1) = some s →
      (∀ e ∈ (processBatches fs gen videos comments b cache).2.2,
        eventBatch e ≠ i + 1) ∧
      cacheLookup (processBatches fs gen videos comments b cache).2.1 (i + 1) = some s ∧
      s ∈ (processBatches fs gen videos comments b cache).1) ∧
    (∀ (fs : MediaFS) (gen : GenEnv) (videos : List VideoRow)
        (comments : List CommentRow) (b : Nat) (cache : Cache),
      (∀ i, i < numBatches videos.length b →
        (cacheLookup (processBatches fs gen videos comments b cache).2.1 (i + 1)).isSome) →
      (processBatches fs gen videos comments b
        (processBatches fs gen videos comments b cache).2.1).2.2 = [] ∧
      (processBatches fs gen videos comments b
        (processBatches fs gen videos comments b cache).2.1).2.1 =
        (processBatches fs gen videos comments b cache).2.1) ∧
    (∀ (fs : MediaFS) (gen : GenEnv) (videos : List VideoRow)
        (comments : List CommentRow) (b : Nat) (cache : Cache) (k : Nat),
      (∀ j, j < k → (cacheLookup cache (j + 1)).isSome) →
      cacheLookup cache (k + 1) = none →
      k < numBatches videos.length b →
      (∀ e ∈ (processBatches fs gen videos comments b cache).2.2,
        k + 1 ≤ eventBatch e) ∧
      Event.mediaResolve (k + 1) ∈ (processBatches fs gen videos comments b cache).2.2 ∧
      (∀ j, j ≤ k →
        cacheLookup (processBatches fs gen videos comments b cache).2.1 j =
          cacheLookup cache j)) := by
  refine ⟨?_, ?_, ?_⟩
  · intro fs gen videos comments b cache i s hi hs
    refine ⟨?_, ?_, ?_⟩
    · exact processLoop_cached_silent _ cache hs
    · exact processLoop_lookup_mono _ cache hs
    · exact processLoop_cached_mem _ cache (List.mem_range.mpr hi) hs
  · intro fs gen videos comments b cache h
    have := @processLoop_all_hits fs gen videos comments b
      (List.range (numBatches videos.length b))
      (processBatches fs gen videos comments b cache).2.1
      (fun i hi => h i (List.mem_range.mp hi))
    exact ⟨this.2, this.1⟩
  · intro fs gen videos comments b cache k hk hnone hkn
    refine ⟨?_, ?_, ?_⟩
    · intro e he
      rcases processLoop_events_tag _ cache e he with ⟨i, _, hie⟩
      by_cases hik : i < k
      · obtain ⟨s, hs⟩ := Option.isSome_iff_exists.mp (hk i hik)
        exact absurd hie (processLoop_cached_silent _ cache hs e he)
      · omega
    · exact processLoop_uncached_resolve _ cache (List.mem_range.mpr hkn) hnone
    · intro j hj
      cases j with
      | zero =>
          exact processLoop_lookup_other _ cache (fun i _ => by omega)
      | succ m =>
          have hm : m < k := by omega
          obtain ⟨s, hs⟩ := Option.isSome_iff_exists.mp (hk m hm)
          have h1 : cacheLookup
              (processBatches fs gen videos comments b cache).2.1 (m + 1) = some s :=
            processLoop_lookup_mono _ cache hs
          rw [h1, hs]

/-- C3: a Stage-1 failure for one batch (the Flash analysis of its resolved
media returns `none`, covering a `FAILED` upload or a raised generative call)
writes no cache entry for that batch number during the whole run, while the
batch is still attempted (its media resolution is in the trace) and every
other initially-uncached batch of the run is also attempted — the loop never
aborts on a failed batch.  The warning log is I/O outside the model. -/
theorem C3_failure_isolation (fs : MediaFS) (gen : GenEnv) (videos : List VideoRow)
    (comments : List CommentRow) (b : Nat) (cache : Cache) (i : Nat)
    (hi : i < numBatches videos.length b)
    (hnone : cacheLookup cache (i + 1) = none)
    (hfail : (runFlashAnalysis gen (i + 1) (resolveMedia fs (batchIds videos b i))).1 =
      none) :
    cacheLookup (processBatches fs gen videos comments b cache).2.1 (i + 1) = none ∧
    Event.mediaResolve (i + 1) ∈ (processBatches fs gen videos comments b cache).2.2 ∧
    (∀ j, j < numBatches videos.length b → cacheLookup cache (j + 1) = none →
      Event.mediaResolve (j + 1) ∈ (processBatches fs gen videos comments b cache).2.2) := by
  refine ⟨?_, ?_, ?_⟩
  · exact processLoop_failed_none _ cache hnone hfail
  · exact processLoop_uncached_resolve _ cache (List.mem_range.mpr hi) hnone
  · intro j hj hcj
    exact processLoop_uncached_resolve _ cache (List.mem_range.mpr hj) hcj

/-- C4: when the Stage-2 Gemini Pro call fails, `run_pipeline` terminates with
no report written and no cleanup performed — the final state keeps the initial
report, and the audio, video and cache directories are exactly as they were
before the run; no `reportWrite` event is traced. -/
theorem C4_stage2_failure_no_cleanup (fs : MediaFS) (gen : GenEnv) (cenv : CleanupEnv)
    (videos : List VideoRow) (comments : List CommentRow) (b : Nat)
    (st : PipelineState) (hpro : gen.proResult = none) :
    (runPipeline fs gen cenv videos comments b st).1.report = st.report ∧
    (runPipeline fs gen cenv videos comments b st).1.audioDirExists = st.audioDirExists ∧
    (runPipeline fs gen cenv videos comments b st).1.videoDirExists = st.videoDirExists ∧
    (runPipeline fs gen cenv videos comments b st).1.cacheDirExists = st.cacheDirExists ∧
    Event.reportWrite ∉ (runPipeline fs gen cenv videos comments b st).2 := by
  unfold runPipeline
  by_cases h1 : videos = [] ∨ comments = []
  · simp [h1]
  · rw [if_neg h1]
    simp only [synthesizeReport, hpro]
    by_cases h2 : (processBatches fs gen videos comments b st.cache).1 = []
    · rw [if_pos h2]
      refine ⟨rfl, rfl, rfl, rfl, ?_⟩
      intro hmem
      rcases processLoop_events_tag _ st.cache Event.reportWrite hmem with ⟨i, _, hie⟩
      exact absurd hie.symm (by simp [eventBatch])
    · rw [if_neg h2]
      refine ⟨rfl, rfl, rfl, rfl, ?_⟩
      intro hmem
      rcases List.mem_append.mp hmem with hl | hr
      · rcases processLoop_events_tag _ st.cache Event.reportWrite hl with ⟨i, _, hie⟩
        exact absurd hie.symm (by simp [eventBatch])
      · simp at hr

/-- C10: when Stage-1 produces no summaries at all (empty starting cache and
every Flash call failing), `run_pipeline` stops before Stage-2: no Gemini Pro
call and no report write appear in the trace, no report is produced, and no
cleanup happens — the three directories are exactly as before the run. -/
theorem C10_empty_summaries_stops (fs : MediaFS) (gen : GenEnv) (cenv : CleanupEnv)
    (videos : List VideoRow) (comments : List CommentRow) (b : Nat)
    (st : PipelineState) (hcache : st.cache = [])
    (hflash : ∀ k, gen.flashResult k = none) :
    Event.proCall ∉ (runPipeline fs gen cenv videos comments b st).2 ∧
    Event.reportWrite ∉ (runPipeline fs gen cenv videos comments b st).2 ∧
    (runPipeline fs gen cenv videos comments b st).1.report = st.report ∧
    (runPipeline fs gen cenv videos comments b st).1.audioDirExists = st.audioDirExists ∧
    (runPipeline fs gen cenv videos comments b st).1.videoDirExists = st.videoDirExists ∧
    (runPipeline fs gen cenv videos comments b st).1.cacheDirExists = st.cacheDirExists := by
  unfold runPipeline
  by_cases h1 : videos = [] ∨ comments = []
  · simp [h1]
  · rw [if_neg h1]
    have hempty : (processBatches fs gen videos comments b st.cache).1 = [] := by
      rw [hcache]
      exact (processLoop_allfail _ hflash).1
    rw [if_pos hempty]
    refine ⟨?_, ?_, rfl, rfl, rfl, rfl⟩
    · intro hmem
      rcases processLoop_events_tag _ st.cache Event.proCall hmem with ⟨i, _, hie⟩
      exact absurd hie.symm (by simp [eventBatch])
    · intro hmem
      rcases processLoop_events_tag _ st.cache Event.reportWrite hmem with ⟨i, _, hie⟩
      exact absurd hie.symm (by simp [eventBatch])

/-- Witness for C1 on the three-video corpus with batch size 1: batch 1 cached
keeps its entry, feeds it to the summaries and triggers no Flash call; a fully
successful first run makes the second run silent; with batch 1 cached and
batch 2 missing, batch 2 is reprocessed and batch 1's entry is unchanged. -/
theorem C1_cache_short_circuit_witness :
    cacheLookup (processBatches fs0 gen0 videos0 comments0 1 [(1, "hit1")]).2.1 1 =
      some ("hit1") ∧
    "hit1" ∈ (processBatches fs0 gen0 videos0 comments0 1 [(1, "hit1")]).1 ∧
    Event.flashCall 1 ∉ (processBatches fs0 gen0 videos0 comments0 1 [(1, "hit1")]).2.2 ∧
    (processBatches fs0 gen0 videos0 comments0 1
      (processBatches fs0 gen0 videos0 comments0 1 []).2.1).2.2 = [] ∧
    (processBatches fs0 gen0 videos0 comments0 1
      (processBatches fs0 gen0 videos0 comments0 1 []).2.1).2.1 =
      (processBatches fs0 gen0 videos0 comments0 1 []).2.1 ∧
    Event.mediaResolve 2 ∈ (processBatches fs0 gen0 videos0 comments0 1 [(1, "x")]).2.2 ∧
    cacheLookup (processBatches fs0 gen0 videos0 comments0 1 [(1, "x")]).2.1 1 =
      cacheLookup [(1, "x")] 1 := by
  obtain ⟨ha, hb, hc⟩ := C1_cache_short_circuit
  have h1 := ha fs0 gen0 videos0 comments0 1 [(1, "hit1")] 0 ("hit1")
    (by decide) (by decide)
  have h2 := hb fs0 gen0 videos0 comments0 1 [] (by decide)
  have h3 := hc fs0 gen0 videos0 comments0 1 [(1, "x")] 1
    (by decide) (by decide) (by decide)
  exact ⟨h1.2.1, h1.2.2, fun hmem => h1.1 (Event.flashCall 1) hmem rfl, h2.1, h2.2,
    h3.2.1, h3.2.2 1 (by decide)⟩

/-- Witness for C2 at the three-video corpus with batch size 2. -/
theorem C2_partition_witness :
    (1 : Nat) ≤ 2 ∧ (batches videos0 2).flatten = videos0 ∧
    ((batches videos0 2).map List.length).sum = videos0.length := by
  have h := C2_partition videos0 2 (by decide)
  exact ⟨by decide, h.2.2.2.2.2.1, h.2.2.2.2.1⟩

/-- Witness for C3: with every Flash call failing, batch 1 gets no cache entry
yet batches 1 and 2 are both attempted. -/
theorem C3_failure_isolation_witness :
    cacheLookup (processBatches fs0 genDead videos0 comments0 1 []).2.1 1 = none ∧
    Event.mediaResolve 1 ∈ (processBatches fs0 genDead videos0 comments0 1 []).2.2 ∧
    Event.mediaResolve 2 ∈ (processBatches fs0 genDead videos0 comments0 1 []).2.2 := by
  have h := C3_failure_isolation fs0 genDead videos0 comments0 1 [] 0
    (by decide) (by decide) (by decide)
  exact ⟨h.1, h.2.1, h.2.2 1 (by decide) (by decide)⟩

/-- Witness for C4: with a failing Gemini Pro call the run ends with no
report, untouched directories, and no report-write event. -/
theorem C4_stage2_failure_no_cleanup_witness :
    (runPipeline fs0 genPro0 cenv0 videos0 comments0 1 st0).1.report = st0.report ∧
    (runPipeline fs0 genPro0 cenv0 videos0 comments0 1 st0).1.audioDirExists =
      st0.audioDirExists ∧
    (runPipeline fs0 genPro0 cenv0 videos0 comments0 1 st0).1.cacheDirExists =
      st0.cacheDirExists ∧
    Event.reportWrite ∉ (runPipeline fs0 genPro0 cenv0 videos0 comments0 1 st0).2 := by
  have h := C4_stage2_failure_no_cleanup fs0 genPro0 cenv0 videos0 comments0 1 st0 rfl
  exact ⟨h.1, h.2.1, h.2.2.2.1, h.2.2.2.2⟩

/-- Witness for C5 on the concrete media layout `fs0`. -/
theorem C5_media_resolution_witness :
    resolveMedia fs0 ["a", "b", "c"] = ["video/a.mp4", "audio/b.mp3"] ∧
    chooseMedia fs0 ("a") = some (videoPath ("a")) ∧
    chooseMedia fs0 ("b") = some (audioPath ("b")) ∧
    chooseMedia fs0 ("c") = none := by
  have h := C5_media_resolution fs0 ["a", "b", "c"]
  exact ⟨by decide, h.2.1 ("a") (by decide),
    h.2.2.1 ("b") (by decide) (by decide), h.2.2.2 ("c") (by decide) (by decide)⟩

/-- Witness for C6: with file `p1` processing once and then active the trace
equation holds, and with the failing file `p2` in the batch the Flash call is
suppressed and the batch fails. -/
theorem C6_wait_gates_flash_call_witness :
    (runFlashAnalysis genMixed 1 ["p1"]).2 =
      ["p1"].map (Event.upload 1) ++
        (waitForFilesActive genMixed.pollStates 1 (["p1"].map genMixed.uploadName)).2 ++
        (if (waitForFilesActive genMixed.pollStates 1
              (["p1"].map genMixed.uploadName)).1 = WaitOutcome.ok
          then [Event.flashCall 1] else []) ∧
    (runFlashAnalysis genMixed 2 ["p1", "p2"]).1 = none ∧
    Event.flashCall 2 ∉ (runFlashAnalysis genMixed 2 ["p1", "p2"]).2 := by
  have h1 := C6_wait_gates_flash_call genMixed 1 ["p1"]
  have h2 := C6_wait_gates_flash_call genMixed 2 ["p1", "p2"]
  have hfail := h2.2.2.1 (by decide)
  exact ⟨h1.1, hfail.1, hfail.2⟩

/-- Witness for C10: with an empty cache and every Flash call failing, the run
makes no Stage-2 call and leaves the state untouched. -/
theorem C10_empty_summaries_stops_witness :
    Event.proCall ∉ (runPipeline fs0 genDead cenv0 videos0 comments0 1 st0).2 ∧
    Event.reportWrite ∉ (runPipeline fs0 genDead cenv0 videos0 comments0 1 st0).2 ∧
    (runPipeline fs0 genDead cenv0 videos0 comments0 1 st0).1.report = st0.report := by
  have h := C10_empty_summaries_stops fs0 genDead cenv0 videos0 comments0 1 st0 rfl
    (fun _ => rfl)
  exact ⟨h.1, h.2.1, h.2.2.1⟩

end YTPipeline
